import Mathlib

/-!
Verification development for the Excel column extractor / key-aligned merge
engine (`excel_colomn_extraction.py`).

The Python source is shallowly embedded as executable Lean functions:

* cell values (`None`, ints, strings) become the inductive `Val`;
* a worksheet becomes `Sheet` (a list of rows, each a list of cell values);
  `cellAt` is 1-based cell access, with absent cells reading as blank,
  matching openpyxl returning `None` for unset cells;
* Python `dict` built by insertion with overwrite is embedded as an
  association list, looked up by `alookup` (first match); dictionaries whose
  later insertions overwrite earlier ones are looked up through `dlookup`
  (last match), matching `column_map[col_name] = col_idx` overwriting;
* `TaskProgress.percentage`, `AsyncTaskExecutor.execute`,
  `ExcelAnalyzer.extract_columns` and `ExcelAnalyzer.merge_multiple_files`
  are embedded below under their source names.

The term `int((current / total) * 100)` inside `percentage` is IEEE-754
double arithmetic, which a shallow integer embedding cannot represent
faithfully (Python yields 28 at `current=29, total=100`, one below the
exact floor); it is abstracted as a function parameter, so the theorems
about `percentage` hold for every behavior of that term, and concrete
instantiations use the exact-arithmetic value only at operands where the
float computation is exact.  Exceptions (`KeyError` on malformed reference maps / file indices,
`TaskCancelledException`) are modelled by `Option`/outcome types: `none`
means the operation raised and, in particular, never invoked `save`.
-/

/-- A Python cell value as used by the program: `None`, an int, or a string. -/
inductive Val where
  | vnone : Val
  | vint : Int → Val
  | vstr : String → Val
deriving DecidableEq, Repr

/-- Python `str(value)` for the values of `Val` (only applied to non-None
values by the source, which guards with `if cell.value is not None`). -/
def pyStr : Val → String
  | Val.vnone => "None"
  | Val.vint n => toString n
  | Val.vstr t => t

/-- A worksheet: a list of rows, each row a list of cell values.  Row 1 is the
header row. -/
structure Sheet where
  rows : List (List Val)
deriving DecidableEq, Repr

/-- `sheet.max_row`: the number of rows. -/
def Sheet.maxRow (s : Sheet) : Nat := s.rows.length

/-- The header row `sheet[1]` (empty if the sheet has no rows). -/
def Sheet.headerRow (s : Sheet) : List Val := (s.rows.get? 0).getD []

/-- `sheet.cell(row=r, column=c).value`, 1-based; cells outside the stored
rows read as blank (`None`), as in openpyxl. -/
def cellAt (s : Sheet) (r c : Nat) : Val :=
  (((s.rows.get? (r - 1)).getD []).get? (c - 1)).getD Val.vnone

/-- The data-row indices `range(2, max_row + 1)` scanned by the merge engine
(row 1 is the header). -/
def rowIdxs (s : Sheet) : List Nat := List.range' 2 (s.maxRow - 1)

/-- Association-list lookup, first match first: embeds lookup in a Python
dict whose keys are inserted at most once. -/
def alookup {α β : Type} [DecidableEq α] : List (α × β) → α → Option β
  | [], _ => none
  | p :: ps, k => if p.1 = k then some p.2 else alookup ps k

/-- Lookup with *last* match winning: embeds lookup in a Python dict built by
repeated assignment, where a later `d[k] = v` overwrites an earlier one. -/
def dlookup {α β : Type} [DecidableEq α] (l : List (α × β)) (k : α) : Option β :=
  alookup l.reverse k

theorem alookup_append {α β : Type} [DecidableEq α] (l1 l2 : List (α × β)) (k : α) :
    alookup (l1 ++ l2) k = (alookup l1 k).orElse (fun _ => alookup l2 k) := by
  induction l1 with
  | nil => simp [alookup]
  | cons p ps ih =>
    by_cases h : p.1 = k <;> simp [alookup, h, ih]

theorem alookup_isSome_iff {α β : Type} [DecidableEq α] (l : List (α × β)) (k : α) :
    (alookup l k).isSome = true ↔ k ∈ l.map Prod.fst := by
  induction l with
  | nil => simp [alookup]
  | cons p ps ih =>
    by_cases h : p.1 = k <;> simp [alookup, h, ih]
    exact fun hk => (h hk.symm).elim

theorem alookup_eq_none_iff {α β : Type} [DecidableEq α] (l : List (α × β)) (k : α) :
    alookup l k = none ↔ ¬ k ∈ l.map Prod.fst := by
  rw [← alookup_isSome_iff]
  cases alookup l k <;> simp

theorem mem_of_alookup_eq_some {α β : Type} [DecidableEq α] {l : List (α × β)} {k : α} {b : β}
    (h : alookup l k = some b) : (k, b) ∈ l := by
  induction l with
  | nil => simp [alookup] at h
  | cons p ps ih =>
    by_cases hk : p.1 = k
    · simp [alookup, hk] at h
      subst hk h
      exact List.mem_cons_self _ _
    · simp [alookup, hk] at h
      exact List.mem_cons_of_mem _ (ih h)

theorem dlookup_isSome_iff {α β : Type} [DecidableEq α] (l : List (α × β)) (k : α) :
    (dlookup l k).isSome = true ↔ k ∈ l.map Prod.fst := by
  rw [dlookup, alookup_isSome_iff, List.map_reverse, List.mem_reverse]

/-- The name given to header cell value `v` found at 1-based position `i`:
`str(cell.value) if cell.value is not None else f"列{col_idx}"`. -/
def headerName (i : Nat) (v : Val) : String :=
  match v with
  | Val.vnone => "列" ++ toString i
  | v => pyStr v

/-- The column names read off the header row, in order (shared by
`load_file_info`, `extract_columns` and `merge_multiple_files`, which all
rescan row 1 with the same rule). -/
def headerNames (s : Sheet) : List String :=
  (s.headerRow.enumFrom 1).map (fun p => headerName p.1 p.2)

/-- The per-file `column_map` association `name -> 1-based column index` in
header order; repeated names overwrite, so lookups use `dlookup`. -/
def columnMapList (s : Sheet) : List (String × Nat) :=
  ((headerNames s).enumFrom 1).map (fun p => (p.2, p.1))

/-- `column_map.get(name)`: the column index of `name`, the *last* header
occurrence winning as in a Python dict built left to right. -/
def colIdxOf (s : Sheet) (n : String) : Option Nat :=
  dlookup (columnMapList s) n

theorem columnMapList_map_fst (s : Sheet) :
    (columnMapList s).map Prod.fst = headerNames s := by
  rw [columnMapList]
  rw [List.map_map]
  have : (Prod.fst ∘ fun p : Nat × String => (p.2, p.1)) = Prod.snd := rfl
  rw [this, List.enumFrom_map_snd]

theorem colIdxOf_isSome_iff (s : Sheet) (n : String) :
    (colIdxOf s n).isSome = true ↔ n ∈ headerNames s := by
  rw [colIdxOf, dlookup_isSome_iff, columnMapList_map_fst]

/-- `TaskProgress.percentage`: `0` when `total <= 0`, otherwise
`min(100, int((current / total) * 100))`.  The inner
`int((current / total) * 100)` is IEEE-754 double arithmetic; it is taken
as the parameter `floatTrunc`, so that every theorem proved for all values
of `floatTrunc` holds of the program regardless of float rounding. -/
def percentage (floatTrunc : Int → Int → Int) (current total : Int) : Int :=
  if total ≤ 0 then 0 else min 100 (floatTrunc current total)

/-- The exact-arithmetic value of `int((current / total) * 100)`:
truncation toward zero of the exact product, `Int.tdiv (current * 100)
total`.  The program's float computation agrees with this wherever no
rounding occurs — in particular at `current = -1, total = 1`, where
`-1 / 1 = -1.0` and `-1.0 * 100 = -100.0` are both exact doubles — but can
differ elsewhere (`29 / 100 * 100` truncates to 28 in the program). -/
def exactFloatTrunc (current total : Int) : Int :=
  Int.tdiv (current * 100) total

/-- How the body of the task function finished, as observed by
`AsyncTaskExecutor.execute`'s `run_task` wrapper. -/
inductive OpOutcome where
  | ret : OpOutcome
  | raiseCancelled : OpOutcome
  | raiseOther : OpOutcome
deriving DecidableEq, Repr

/-- Which terminal callback `run_task` fires. -/
inductive Fired where
  | complete : Fired
  | errored : Fired
  | cancelled : Fired
  | nothing : Fired
deriving DecidableEq, Repr

/-- `AsyncTaskExecutor.execute`'s `run_task`: on normal return, fires
`on_complete` only when the token is not cancelled and the callback was
supplied; `TaskCancelledException` routes to `on_cancelled`; any other
exception routes to `on_error`; unsupplied callbacks fire nothing. -/
def runTask (o : OpOutcome) (tokenSet hasComplete hasError hasCancelled : Bool) : Fired :=
  match o with
  | OpOutcome.ret =>
    if tokenSet then Fired.nothing
    else if hasComplete then Fired.complete else Fired.nothing
  | OpOutcome.raiseCancelled => if hasCancelled then Fired.cancelled else Fired.nothing
  | OpOutcome.raiseOther => if hasError then Fired.errored else Fired.nothing

/-- `ExcelAnalyzer.extract_columns`, output structure: for each requested
name (in request order) that resolves in the header, the source column's
cells for rows `1..max_row`; unresolved names are silently skipped and
leave no gap.  (Cell styles are copied alongside values in the source; the
embedding tracks the values.) -/
def extract_columns (s : Sheet) (selected : List String) : List (List Val) :=
  selected.filterMap (fun n =>
    (colIdxOf s n).map (fun c =>
      (List.range' 1 s.maxRow).map (fun r => cellAt s r c)))

/-- Step 2 / step 4b key scan: walk `rows 2..max_row` of column `c`,
recording each not-yet-seen key value with the row of its first occurrence
(`if key_value not in key_to_row: keys.append(...); key_to_row[...] = row`).
The `keys` list of the source is the `Prod.fst` projection of this
association list. -/
def scanRows (s : Sheet) (c : Nat) : List Nat → List (Val × Nat) → List (Val × Nat)
  | [], acc => acc
  | r :: rs, acc =>
    if (alookup acc (cellAt s r c)).isSome then scanRows s c rs acc
    else scanRows s c rs (acc ++ [(cellAt s r c, r)])

/-- `key_to_row` (equally `file_key_to_row`) for column `c` of sheet `s`. -/
def scanKeyRows (s : Sheet) (c : Nat) : List (Val × Nat) :=
  scanRows s c (rowIdxs s) []

/-- Step 2 for one reference-map entry: `reference_keys[name]` and
`reference_key_to_row[name]` when they were built, `none` when the entry was
skipped (`if column_name not in column_maps[ref_file_index]: continue`) or
the reference file index is out of range (in the source the latter raises
before anything is written). -/
def refData (files : List Sheet) (refMap : List (String × Nat)) (name : String) :
    Option (List Val × List (Val × Nat)) :=
  match alookup refMap name with
  | none => none
  | some rf =>
    match files.get? rf with
    | none => none
    | some rs =>
      match colIdxOf rs name with
      | none => none
      | some c =>
        some ((scanKeyRows rs c).map Prod.fst, scanKeyRows rs c)

/-- The selected column names contributed by file `f`, in selection order
(`columns_by_file[file_index]`). -/
def colsOfFile (sel : List (Nat × String)) (f : Nat) : List String :=
  (sel.filter (fun p => decide (p.1 = f))).map Prod.snd

/-- Step 4b driving-reference choice: the first selected column name of the
file that appears in the reference map (`break` on first match). -/
def findRefName (names : List String) (refMap : List (String × Nat)) : Option String :=
  names.find? (fun n => (alookup refMap n).isSome)

/-- Step 4b walk of the canonical `ref_keys`: the target-row counter starts
at `t` and increments for *every* canonical key; keys present in
`file_key_to_row` map their first-occurrence row to the counter's value.
Returns the mapping pairs (in walk order) and the final counter. -/
def phase1 (fk2r : List (Val × Nat)) : List Val → Nat → List (Nat × Nat) × Nat
  | [], t => ([], t)
  | k :: ks, t =>
    let rest := phase1 fk2r ks (t + 1)
    match alookup fk2r k with
    | some r => ((r, t) :: rest.1, rest.2)
    | none => rest

/-- Step 4b appendix: walk `file_key_to_row.items()` in insertion order and
give each key absent from the reference file's key set the next counter
value. -/
def phase2 (rk2r : List (Val × Nat)) : List (Val × Nat) → Nat → List (Nat × Nat)
  | [], _ => []
  | p :: ps, t =>
    if (alookup rk2r p.1).isSome then phase2 rk2r ps t
    else (p.2, t) :: phase2 rk2r ps (t + 1)

/-- The complete reference-driven `file_row_mapping`: canonical walk starting
at target row 2, then the file's own extra keys continuing the counter. -/
def refDrivenMapping (rkeys : List Val) (rk2r fk2r : List (Val × Nat)) : List (Nat × Nat) :=
  (phase1 fk2r rkeys 2).1 ++ phase2 rk2r fk2r (phase1 fk2r rkeys 2).2

/-- Rule (a) `source_row -> target_row` 1:1 mapping for files with no driving
reference column: rows `2..max_row` map to themselves. -/
def directMapping (maxRow : Nat) : List (Nat × Nat) :=
  (List.range' 2 (maxRow - 1)).map (fun r => (r, r))

/-- Step 4 `row_mapping[file_index]`.  `none` embeds the `KeyError` raised at
`reference_keys[ref_column_name]` when the chosen reference entry was skipped
in step 2, or at `max_rows[file_index]` for an out-of-range file index. -/
def fileRowMapping (files : List Sheet) (refMap : List (String × Nat))
    (sel : List (Nat × String)) (f : Nat) : Option (List (Nat × Nat)) :=
  match files.get? f with
  | none => none
  | some sheet =>
    match findRefName (colsOfFile sel f) refMap with
    | none => some (directMapping sheet.maxRow)
    | some rname =>
      match refData files refMap rname with
      | none => none
      | some rd =>
        match colIdxOf sheet rname with
        | none => some (directMapping sheet.maxRow)
        | some c => some (refDrivenMapping rd.1 rd.2 (scanKeyRows sheet c))

/-- The distinct file indices used by the selection, ascending
(`sorted(columns_by_file.keys())`), assuming all of them are in range. -/
def sortedFileKeys (files : List Sheet) (sel : List (Nat × String)) : List Nat :=
  (List.range files.length).filter (fun f => decide (f ∈ sel.map Prod.fst))

/-- Sequence a Option-valued map over a list (used for per-file plan
construction; `none` aborts the whole merge, like an uncaught exception). -/
def seqMap {α β : Type} (g : α → Option β) : List α → Option (List β)
  | [] => some []
  | a :: as =>
    match g a with
    | none => none
    | some b =>
      match seqMap g as with
      | none => none
      | some bs => some (b :: bs)

/-- Everything the merge emit phase (step 5) needs for one file: its sheet,
its selected column names in order, and its row mapping. -/
def mergePlan (files : List Sheet) (sel : List (Nat × String))
    (refMap : List (String × Nat)) :
    Option (List (Sheet × List String × List (Nat × Nat))) :=
  if (refMap.all (fun p => decide (p.2 < files.length))
      && sel.all (fun p => decide (p.1 < files.length))) then
    seqMap (fun f =>
      match files.get? f with
      | none => none
      | some sheet =>
        match fileRowMapping files refMap sel f with
        | none => none
        | some m => some (sheet, colsOfFile sel f, m))
      (sortedFileKeys files sel)
  else none

/-- Step 5 writes of one output column: the header value from source row 1,
then for each `(source_row, target_row)` pair of the file's row mapping the
source cell value written at the target row. -/
def emitColumn (sheet : Sheet) (c : Nat) (m : List (Nat × Nat)) : List (Nat × Val) :=
  (1, cellAt sheet 1 c) :: m.map (fun p => (p.2, cellAt sheet p.1 c))

/-- Step 5 for one file: its selected columns in order, skipping names that
do not resolve (`if not source_col_idx: continue`), packed left to right. -/
def emitFile (sheet : Sheet) (names : List String) (m : List (Nat × Nat)) :
    List (List (Nat × Val)) :=
  names.filterMap (fun n =>
    (colIdxOf sheet n).map (fun c => emitColumn sheet c m))

/-- `ExcelAnalyzer.merge_multiple_files`: the saved output, as the ordered
list of output columns, each column the list of its `(row, value)` writes.
`none` embeds the operation raising (no output file saved). -/
def merge_multiple_files (files : List Sheet) (sel : List (Nat × String))
    (refMap : List (String × Nat)) : Option (List (List (Nat × Val))) :=
  match mergePlan files sel refMap with
  | none => none
  | some plan => some ((plan.map (fun t => emitFile t.1 t.2.1 t.2.2)).flatten)

/-- Reading cell `(r, c)` (1-based column position) of the produced output
sheet: the value written there, blank if never written. -/
def outCell (out : List (List (Nat × Val))) (r c : Nat) : Val :=
  (alookup ((out.get? (c - 1)).getD []) r).getD Val.vnone

/-- `Nat.toDigitsCore` with positive fuel always pushes at least the digit of
`n % base` onto the accumulator. -/
theorem toDigitsCore_shape (b : Nat) :
    ∀ fuel n ds, 1 ≤ fuel →
      ∃ t, Nat.toDigitsCore b fuel n ds = t ++ Nat.digitChar (n % b) :: ds := by
  intro fuel
  induction fuel with
  | zero => intro n ds h; omega
  | succ m ih =>
    intro n ds _
    rw [Nat.toDigitsCore]
    by_cases h0 : n / b = 0
    · exact ⟨[], by simp [h0]⟩
    · simp only [h0, if_false]
      match m, ih with
      | 0, _ => exact ⟨[], rfl⟩
      | m + 1, ih =>
        obtain ⟨t, ht⟩ := ih (n / b) (Nat.digitChar (n % b) :: ds) (Nat.le_add_left 1 m)
        exact ⟨t ++ [Nat.digitChar (n / b % b)], by simp [ht]⟩

theorem toDigits_ne_nil (b n : Nat) : Nat.toDigits b n ≠ [] := by
  rw [Nat.toDigits]
  obtain ⟨t, ht⟩ := toDigitsCore_shape b (n + 1) n [] (Nat.le_add_left 1 n)
  rw [ht]
  simp

theorem natRepr_ne_empty (n : Nat) : Nat.repr n ≠ "" := by
  intro h
  have hd := congrArg String.data h
  have : (Nat.toDigits 10 n).asString.data = Nat.toDigits 10 n := rfl
  rw [Nat.repr] at hd
  rw [this] at hd
  exact toDigits_ne_nil 10 n hd

theorem intToString_ne_empty (z : Int) : toString z ≠ "" := by
  match z with
  | Int.ofNat m =>
    have : toString (Int.ofNat m) = Nat.repr m := rfl
    rw [this]
    exact natRepr_ne_empty m
  | Int.negSucc m =>
    have : toString (Int.negSucc m) = "-" ++ Nat.repr (m + 1) := rfl
    rw [this]
    intro h
    have hl := congrArg String.length h
    rw [String.length_append] at hl
    have e1 : String.length "-" = 1 := rfl
    have e2 : String.length "" = 0 := rfl
    rw [e1, e2] at hl
    omega

theorem pyStr_ne_empty (v : Val) (h1 : v ≠ Val.vnone) (h2 : v ≠ Val.vstr "") :
    pyStr v ≠ "" := by
  match v with
  | Val.vnone => exact (h1 rfl).elim
  | Val.vint z => exact intToString_ne_empty z
  | Val.vstr t =>
    intro h
    rw [pyStr] at h
    exact h2 (by rw [h])

theorem synthName_ne_empty (i : Nat) : ("列" ++ toString i) ≠ "" := by
  intro h
  have hl := congrArg String.length h
  rw [String.length_append] at hl
  have e1 : String.length "列" = 1 := rfl
  have e2 : String.length "" = 0 := rfl
  rw [e1, e2] at hl
  omega

/-- Claim C9 counterexample: the computed percentage has no lower clamp.
At `current = -1, total = 1` the source computes
`min(100, int((-1/1)*100)) = min(100, -100) = -100` — the float arithmetic
is exact at these operands, so `exactFloatTrunc` is the program's inner
term here — below 0, while the claimed
`clamp(0, 100, floor(current/total*100))` is `0`. -/
theorem percentage_cex :
    percentage exactFloatTrunc (-1) 1 = -100 ∧
    percentage exactFloatTrunc (-1) 1 < 0 ∧
    percentage exactFloatTrunc (-1) 1 ≠ max 0 (min 100 ((-1 : Int) * 100 / 1)) := by
  decide

/-- Claim C9, amended: for every behavior of the float truncation term, the
computed percentage is `0` whenever `total ≤ 0`, never exceeds 100, and is
nonnegative whenever the truncation term is nonnegative (as it is in IEEE
arithmetic for nonnegative `current` and positive `total`); there is no
lower clamp of its own, and no exact floor equality is claimed, since the
program truncates a rounded float product. -/
theorem percentage_amended (ft : Int → Int → Int) (c t : Int) :
    (t ≤ 0 → percentage ft c t = 0) ∧
    percentage ft c t ≤ 100 ∧
    (0 ≤ ft c t → 0 ≤ percentage ft c t) := by
  refine ⟨fun ht => by simp [percentage, ht], ?_, ?_⟩
  · by_cases ht : t ≤ 0
    · simp [percentage, ht]
    · simp only [percentage, ht, if_false]
      exact min_le_left _ _
  · intro hft
    by_cases ht : t ≤ 0
    · simp [percentage, ht]
    · simp only [percentage, ht, if_false]
      exact le_min (by norm_num) hft

/-- Witness for `percentage_amended`: at `total = 0` the result is 0; at
`current = 1, total = 3` with the exact truncation term the result is
within `[0, 100]`. -/
theorem percentage_amended_witness :
    percentage exactFloatTrunc 7 0 = 0 ∧
    percentage exactFloatTrunc 1 3 ≤ 100 ∧
    0 ≤ percentage exactFloatTrunc 1 3 :=
  ⟨(percentage_amended exactFloatTrunc 7 0).1 (by decide),
   (percentage_amended exactFloatTrunc 1 3).2.1,
   (percentage_amended exactFloatTrunc 1 3).2.2 (by decide)⟩

/-- Claim C8 counterexample: when the cancellation token is set but the task
function returns normally, `run_task` skips `on_complete` (guard
`if not self.cancellation_token.is_cancelled()`) and raises nothing, so *no*
terminal callback fires — the claimed "exactly one ... never zero" fails. -/
theorem task_callback_cex :
    runTask OpOutcome.ret true true true true = Fired.nothing ∧
    Fired.nothing ≠ Fired.complete ∧
    Fired.nothing ≠ Fired.errored ∧
    Fired.nothing ≠ Fired.cancelled := by
  decide

/-- Claim C8, amended: with all three callbacks supplied, exactly one fires —
`on_complete` on normal return with a clear token, `on_cancelled` on
`TaskCancelledException`, `on_error` on any other exception — except that a
normal return with the token already set fires no terminal callback. -/
theorem task_callback_amended :
    runTask OpOutcome.ret false true true true = Fired.complete ∧
    runTask OpOutcome.raiseCancelled false true true true = Fired.cancelled ∧
    runTask OpOutcome.raiseCancelled true true true true = Fired.cancelled ∧
    runTask OpOutcome.raiseOther false true true true = Fired.errored ∧
    runTask OpOutcome.raiseOther true true true true = Fired.errored ∧
    runTask OpOutcome.ret true true true true = Fired.nothing := by
  decide

/-- Claim C5 counterexample: the synthetic name for a blank header cell is
the localized `"列1"`, not `"Column1"`; and a header cell holding the empty
string yields an empty discovered name. -/
theorem header_synthesis_cex :
    (headerNames ⟨[[Val.vnone, Val.vstr "X"]]⟩).get? 0 = some "列1" ∧
    "列1" ≠ "Column1" ∧
    headerNames ⟨[[Val.vstr ""]]⟩ = [""] ∧
    "" ∈ headerNames ⟨[[Val.vstr ""]]⟩ := by
  decide

/-- Claim C5, amended: a blank header cell at 1-based position `i` is given
the synthetic name `"列" ++ i` (the implementation's rendering of
`Column-i`), which is never empty; and every discovered column name is
non-empty provided no header cell holds the empty string. -/
theorem header_synthesis_amended (s : Sheet) (i : Nat) (h1 : 1 ≤ i)
    (h2 : s.headerRow.get? (i - 1) = some Val.vnone) :
    (headerNames s).get? (i - 1) = some ("列" ++ toString i) ∧
    ("列" ++ toString i) ≠ "" ∧
    ((∀ v ∈ s.headerRow, v ≠ Val.vstr "") → ∀ n ∈ headerNames s, n ≠ "") := by
  have hidx : 1 + (i - 1) = i := by omega
  refine ⟨?_, synthName_ne_empty i, ?_⟩
  · rw [headerNames, List.get?_map, List.enumFrom_get?, h2]
    show some (headerName (1 + (i - 1)) Val.vnone) = _
    rw [hidx]
    rfl
  · intro hv n hn
    rw [headerNames, List.mem_map] at hn
    obtain ⟨p, hp, hpn⟩ := hn
    have hsnd : p.2 ∈ s.headerRow := by
      rw [← List.enumFrom_map_snd 1 s.headerRow]
      exact List.mem_map_of_mem Prod.snd hp
    subst hpn
    match hv2 : p.2 with
    | Val.vnone => exact synthName_ne_empty p.1
    | Val.vint z => exact intToString_ne_empty z
    | Val.vstr t =>
      have : Val.vstr t ≠ Val.vstr "" := by
        rw [← hv2]
        exact hv p.2 hsnd
      have ht : t ≠ "" := fun h => this (by rw [h])
      simpa [headerName, pyStr] using ht

/-- Witness for `header_synthesis_amended` on a sheet whose header row is a
single blank cell. -/
theorem header_synthesis_amended_witness :
    1 ≤ 1 ∧
    ((Sheet.mk [[Val.vnone]]).headerRow.get? (1 - 1) = some Val.vnone) ∧
    ((headerNames ⟨[[Val.vnone]]⟩).get? (1 - 1) = some ("列" ++ toString 1) ∧
     ("列" ++ toString 1) ≠ "" ∧
     ((∀ v ∈ (Sheet.mk [[Val.vnone]]).headerRow, v ≠ Val.vstr "") →
       ∀ n ∈ headerNames ⟨[[Val.vnone]]⟩, n ≠ "")) :=
  ⟨Nat.le_refl 1, by decide,
    header_synthesis_amended ⟨[[Val.vnone]]⟩ 1 (Nat.le_refl 1) (by decide)⟩

/-- File A of the spec's worked scenario. -/
def scenA : Sheet :=
  ⟨[[Val.vstr "ID", Val.vstr "Name"],
    [Val.vint 1, Val.vstr "Alice"],
    [Val.vint 2, Val.vstr "Bob"],
    [Val.vint 3, Val.vstr "Carol"]]⟩

/-- File B of the spec's worked scenario. -/
def scenB : Sheet :=
  ⟨[[Val.vstr "ID", Val.vstr "Score"],
    [Val.vint 2, Val.vint 90],
    [Val.vint 3, Val.vint 85],
    [Val.vint 4, Val.vint 77]]⟩

/-- The scenario's selection `[(A,"ID"),(A,"Name"),(B,"Score")]`. -/
def scenSel : List (Nat × String) := [(0, "ID"), (0, "Name"), (1, "Score")]

/-- The scenario's reference map `{"ID": A}`. -/
def scenRef : List (String × Nat) := [("ID", 0)]

/-- What the merge engine actually produces on the scenario. -/
def scenOut : List (List (Nat × Val)) :=
  [[(1, Val.vstr "ID"), (2, Val.vint 1), (3, Val.vint 2), (4, Val.vint 3)],
   [(1, Val.vstr "Name"), (2, Val.vstr "Alice"), (3, Val.vstr "Bob"), (4, Val.vstr "Carol")],
   [(1, Val.vstr "Score"), (2, Val.vint 90), (3, Val.vint 85), (4, Val.vint 77)]]

/-- Claim C2 counterexample: on the scenario's inputs, output row 2 column 3
holds `90` (not blank, as claimed) and row 3 column 3 holds `85` (not `90`):
file B's selected columns contain no reference-map name (`(B,"ID")` is not
selected), so B's `Score` column gets the 1:1 row mapping, not key
alignment. -/
theorem scenario_cex :
    merge_multiple_files [scenA, scenB] scenSel scenRef = some scenOut ∧
    outCell scenOut 2 3 = Val.vint 90 ∧
    Val.vint 90 ≠ Val.vnone ∧
    outCell scenOut 3 3 = Val.vint 85 ∧
    Val.vint 85 ≠ Val.vint 90 := by
  decide

/-- Claim C2, amended: on the scenario's inputs the merge produces header
`ID, Name, Score`, row 2 `1, Alice, 90`, row 3 `2, Bob, 85`, row 4
`3, Carol, 77` — B's `Score` rows are stacked in original order because B
contributes no selected reference-map column. -/
theorem scenario_actual_output :
    merge_multiple_files [scenA, scenB] scenSel scenRef = some scenOut ∧
    outCell scenOut 1 1 = Val.vstr "ID" ∧
    outCell scenOut 1 2 = Val.vstr "Name" ∧
    outCell scenOut 1 3 = Val.vstr "Score" ∧
    outCell scenOut 2 1 = Val.vint 1 ∧
    outCell scenOut 2 2 = Val.vstr "Alice" ∧
    outCell scenOut 2 3 = Val.vint 90 ∧
    outCell scenOut 3 1 = Val.vint 2 ∧
    outCell scenOut 3 2 = Val.vstr "Bob" ∧
    outCell scenOut 3 3 = Val.vint 85 ∧
    outCell scenOut 4 1 = Val.vint 3 ∧
    outCell scenOut 4 2 = Val.vstr "Carol" ∧
    outCell scenOut 4 3 = Val.vint 77 := by
  decide

/-- The first data row of sheet `s` whose column-`c` cell equals `k`
(specification-side first-occurrence row). -/
def firstRowOf (s : Sheet) (c : Nat) (k : Val) : Option Nat :=
  (rowIdxs s).find? (fun r => decide (cellAt s r c = k))

/-- Whether data row `r` is the first occurrence of its own key value in
column `c` of sheet `s`. -/
def isFirstOcc (s : Sheet) (c : Nat) (r : Nat) : Bool :=
  decide (firstRowOf s c (cellAt s r c) = some r)

theorem scanRows_alookup (s : Sheet) (c : Nat) :
    ∀ (rs : List Nat) (acc : List (Val × Nat)) (k : Val),
      alookup (scanRows s c rs acc) k =
        (alookup acc k).orElse (fun _ => rs.find? (fun r => decide (cellAt s r c = k))) := by
  intro rs
  induction rs with
  | nil =>
    intro acc k
    rw [scanRows]
    cases alookup acc k <;> simp [Option.orElse]
  | cons r rs ih =>
    intro acc k
    rw [scanRows]
    by_cases hseen : (alookup acc (cellAt s r c)).isSome
    · rw [if_pos hseen, ih]
      by_cases hk : cellAt s r c = k
      · obtain ⟨row, hrow⟩ := Option.isSome_iff_exists.mp hseen
        rw [hk] at hrow
        rw [hrow]
        simp [Option.orElse]
      · rw [List.find?_cons_of_neg]
        simp [hk]
    · rw [if_neg hseen, ih, alookup_append]
      have hacc0 : alookup acc (cellAt s r c) = none :=
        Option.not_isSome_iff_eq_none.mp hseen
      by_cases hk : cellAt s r c = k
      · rw [← hk]
        rw [hacc0]
        rw [List.find?_cons_of_pos _ (by simp)]
        simp [alookup, Option.orElse]
      · rw [List.find?_cons_of_neg _ (by simp [hk])]
        have : alookup [(cellAt s r c, r)] k = none := by
          simp [alookup, hk]
        rw [this]
        cases alookup acc k <;> simp [Option.orElse]

theorem scanKeyRows_alookup (s : Sheet) (c : Nat) (k : Val) :
    alookup (scanKeyRows s c) k = firstRowOf s c k := by
  rw [scanKeyRows, scanRows_alookup, firstRowOf]
  simp [alookup, Option.orElse]

theorem scanRows_keys_nodup (s : Sheet) (c : Nat) :
    ∀ (rs : List Nat) (acc : List (Val × Nat)),
      (acc.map Prod.fst).Nodup → ((scanRows s c rs acc).map Prod.fst).Nodup := by
  intro rs
  induction rs with
  | nil => intro acc h; rw [scanRows]; exact h
  | cons r rs ih =>
    intro acc h
    rw [scanRows]
    by_cases hseen : (alookup acc (cellAt s r c)).isSome
    · rw [if_pos hseen]; exact ih acc h
    · rw [if_neg hseen]
      refine ih _ ?_
      rw [List.map_append]
      have hnot : ¬ cellAt s r c ∈ acc.map Prod.fst := by
        rw [← alookup_isSome_iff (β := Nat)]
        simp [hseen]
      rw [List.nodup_append]
      refine ⟨h, by simp, ?_⟩
      intro a ha hb
      simp at hb
      subst hb
      exact hnot ha

/-- The first-occurrence scan over a duplicate-free row list keeps exactly
the rows that are the first occurrence of their key among the scanned rows,
in order, paired with their key values. -/
theorem scanRows_eq_filter (s : Sheet) (c : Nat) :
    ∀ (rs : List Nat), rs.Nodup → ∀ (acc : List (Val × Nat)),
      scanRows s c rs acc =
        acc ++ (rs.filter (fun r =>
            (alookup acc (cellAt s r c)).isNone &&
            decide (rs.find? (fun r2 => decide (cellAt s r2 c = cellAt s r c)) = some r))).map
          (fun r => (cellAt s r c, r)) := by
  intro rs
  induction rs with
  | nil => intro _ acc; simp [scanRows]
  | cons r rs ih =>
    intro hnd acc
    have hr : ¬ r ∈ rs := (List.nodup_cons.mp hnd).1
    have hnd2 : rs.Nodup := (List.nodup_cons.mp hnd).2
    rw [scanRows]
    by_cases hseen : (alookup acc (cellAt s r c)).isSome
    · rw [if_pos hseen, ih hnd2 acc]
      have hin : (alookup acc (cellAt s r c)).isNone = false := by
        cases h : alookup acc (cellAt s r c)
        · rw [h] at hseen; simp at hseen
        · simp
      rw [List.filter_cons_of_neg (by simp [hin])]
      congr 1
      congr 1
      apply List.filter_congr
      intro x hx
      by_cases hex : cellAt s x c = cellAt s r c
      · rw [hex, hin]
        simp
      · rw [List.find?_cons_of_neg]
        simp only [decide_eq_true_eq]
        intro hc
        exact hex (by rw [hc])
    · have hacc0 : alookup acc (cellAt s r c) = none :=
        Option.not_isSome_iff_eq_none.mp hseen
      rw [if_neg hseen, ih hnd2 (acc ++ [(cellAt s r c, r)])]
      rw [List.filter_cons_of_pos
        (by
          rw [List.find?_cons_of_pos _ (by simp)]
          simp [hacc0])]
      rw [List.map_cons, List.append_assoc, List.singleton_append]
      congr 1
      congr 1
      refine congrArg (List.map (fun r => (cellAt s r c, r))) (List.filter_congr ?_)
      intro x hx
      by_cases hex : cellAt s x c = cellAt s r c
      · have hlk : alookup (acc ++ [(cellAt s r c, r)]) (cellAt s x c) = some r := by
          rw [alookup_append, hex, hacc0]
          simp [alookup, Option.orElse]
        rw [hlk]
        have hfind : (r :: rs).find? (fun r2 => decide (cellAt s r2 c = cellAt s x c)) = some r := by
          rw [List.find?_cons_of_pos _ (by simp [hex])]
        rw [hfind]
        have hrx : r ≠ x := fun h => hr (h ▸ hx)
        simp [hrx]
      · have hlk : alookup (acc ++ [(cellAt s r c, r)]) (cellAt s x c) =
            alookup acc (cellAt s x c) := by
          rw [alookup_append]
          have : alookup [(cellAt s r c, r)] (cellAt s x c) = none := by
            simp [alookup]
            intro h
            exact hex (by rw [h])
          rw [this]
          cases alookup acc (cellAt s x c) <;> simp [Option.orElse]
        rw [hlk]
        rw [List.find?_cons_of_neg _ (by
          simp only [decide_eq_true_eq]
          intro hc
          exact hex (by rw [hc]))]

/-- `file_key_to_row` keeps exactly the first-occurrence rows of the scanned
column, in row order, paired with their keys. -/
theorem scanKeyRows_eq_filter (s : Sheet) (c : Nat) :
    scanKeyRows s c =
      ((rowIdxs s).filter (fun r => isFirstOcc s c r)).map (fun r => (cellAt s r c, r)) := by
  rw [scanKeyRows, scanRows_eq_filter s c (rowIdxs s) (by rw [rowIdxs]; exact List.nodup_range' _ _) []]
  rw [List.nil_append]
  refine congrArg (List.map (fun r => (cellAt s r c, r))) (List.filter_congr ?_)
  intro x hx
  simp [alookup, isFirstOcc, firstRowOf]

theorem scanKeyRows_map_snd (s : Sheet) (c : Nat) :
    (scanKeyRows s c).map Prod.snd = (rowIdxs s).filter (fun r => isFirstOcc s c r) := by
  rw [scanKeyRows_eq_filter, List.map_map]
  exact List.map_id _

theorem scanKeyRows_snd_nodup (s : Sheet) (c : Nat) :
    ((scanKeyRows s c).map Prod.snd).Nodup := by
  rw [scanKeyRows_map_snd, rowIdxs]
  exact List.Nodup.filter _ (List.nodup_range' _ _)

theorem scanKeyRows_keys_nodup (s : Sheet) (c : Nat) :
    ((scanKeyRows s c).map Prod.fst).Nodup :=
  scanRows_keys_nodup s c (rowIdxs s) [] (by simp)

theorem snd_nodup_inj {α β : Type} {l : List (α × β)} (h : (l.map Prod.snd).Nodup)
    {k1 k2 : α} {r : β} (h1 : (k1, r) ∈ l) (h2 : (k2, r) ∈ l) : k1 = k2 := by
  induction l with
  | nil => simp at h1
  | cons p ps ih =>
    rw [List.map_cons, List.nodup_cons] at h
    rcases List.mem_cons.mp h1 with he1 | ht1 <;> rcases List.mem_cons.mp h2 with he2 | ht2
    · rw [← he2] at he1
      exact congrArg Prod.fst he1
    · exfalso
      apply h.1
      have hmem : r ∈ ps.map Prod.snd := by
        simpa using List.mem_map_of_mem Prod.snd ht2
      have hp2 : p.2 = r := by rw [← he1]
      rw [hp2]
      exact hmem
    · exfalso
      apply h.1
      have hmem : r ∈ ps.map Prod.snd := by
        simpa using List.mem_map_of_mem Prod.snd ht1
      have hp2 : p.2 = r := by rw [← he2]
      rw [hp2]
      exact hmem
    · exact ih h.2 ht1 ht2

theorem scanKeyRows_row_inj (s : Sheet) (c : Nat) {k1 k2 : Val} {r : Nat}
    (h1 : alookup (scanKeyRows s c) k1 = some r)
    (h2 : alookup (scanKeyRows s c) k2 = some r) : k1 = k2 :=
  snd_nodup_inj (scanKeyRows_snd_nodup s c)
    (mem_of_alookup_eq_some h1) (mem_of_alookup_eq_some h2)

/-- The canonical walk produces, in order, one `(source_row, target_row)`
pair for each canonical key found in `file_key_to_row`, the target row being
2 plus the key's position in the canonical sequence. -/
theorem phase1_fst (fk2r : List (Val × Nat)) :
    ∀ (ks : List Val) (t : Nat),
      (phase1 fk2r ks t).1 =
        (ks.enumFrom t).filterMap (fun p => (alookup fk2r p.2).map (fun r => (r, p.1))) := by
  intro ks
  induction ks with
  | nil => intro t; rfl
  | cons k ks ih =>
    intro t
    rw [phase1, List.enumFrom_cons, List.filterMap_cons]
    cases halk : alookup fk2r k with
    | none => simp only [halk, Option.map_none]; exact ih (t + 1)
    | some r => simp [halk, ih (t + 1)]

theorem phase1_snd (fk2r : List (Val × Nat)) :
    ∀ (ks : List Val) (t : Nat), (phase1 fk2r ks t).2 = t + ks.length := by
  intro ks
  induction ks with
  | nil => intro t; rfl
  | cons k ks ih =>
    intro t
    rw [phase1]
    cases halk : alookup fk2r k with
    | none => simp only [halk]; rw [ih (t + 1), List.length_cons]; omega
    | some r => simp only [halk]; rw [ih (t + 1), List.length_cons]; omega

/-- The appendix walk keeps, in insertion order, the file keys absent from
the reference key set, assigning consecutive target rows from `t`. -/
theorem phase2_eq (rk2r : List (Val × Nat)) :
    ∀ (items : List (Val × Nat)) (t : Nat),
      phase2 rk2r items t =
        ((items.filter (fun p => (alookup rk2r p.1).isNone)).enumFrom t).map
          (fun q => (q.2.2, q.1)) := by
  intro items
  induction items with
  | nil => intro t; rfl
  | cons p ps ih =>
    intro t
    rw [phase2]
    by_cases hseen : (alookup rk2r p.1).isSome
    · rw [if_pos hseen]
      have : (alookup rk2r p.1).isNone = false := by
        cases h : alookup rk2r p.1
        · rw [h] at hseen; simp at hseen
        · simp
      simp only [List.filter_cons, this, Bool.false_eq_true, if_false]
      exact ih t
    · rw [if_neg hseen]
      have : (alookup rk2r p.1).isNone = true := by
        cases h : alookup rk2r p.1
        · simp
        · rw [h] at hseen; simp at hseen
      simp only [List.filter_cons, this, if_true]
      rw [List.enumFrom_cons, List.map_cons, ih (t + 1)]

theorem isNone_eq_not_mem_keys (rk2r : List (Val × Nat)) (rkeys : List Val)
    (hk : rkeys = rk2r.map Prod.fst) (k : Val) :
    (alookup rk2r k).isNone = ! decide (k ∈ rkeys) := by
  by_cases hm : k ∈ rkeys
  · have hs : (alookup rk2r k).isSome = true := by
      rw [alookup_isSome_iff, ← hk]
      exact hm
    cases h : alookup rk2r k
    · rw [h] at hs; simp at hs
    · simp [hm]
  · have hn : alookup rk2r k = none := by
      rw [alookup_eq_none_iff, ← hk]
      exact hm
    rw [hn]
    simp [hm]

/-- Claim C3: for a file driven by reference name `R` that contains its own
copy of column `R`, the row mapping is exactly: each canonical key (walked in
order, the target counter starting at 2 and advancing for *every* canonical
key) maps the file's first-occurrence row of that key — when the key occurs
in the file at all — to `2 + (index of the key)`; after the canonical keys,
the file's own first-occurrence rows whose keys are not canonical are
appended in original row order, with targets continuing at
`2 + (number of canonical keys)`. -/
theorem row_mapping_construction
    (files : List Sheet) (refMap : List (String × Nat)) (sel : List (Nat × String))
    (f : Nat) (sf : Sheet) (R : String) (rkeys : List Val) (rk2r : List (Val × Nat)) (cf : Nat)
    (hsf : files.get? f = some sf)
    (hdrive : findRefName (colsOfFile sel f) refMap = some R)
    (href : refData files refMap R = some (rkeys, rk2r))
    (hcf : colIdxOf sf R = some cf) :
    fileRowMapping files refMap sel f = some (
      ((rkeys.enumFrom 2).filterMap (fun p => (firstRowOf sf cf p.2).map (fun r => (r, p.1))))
        ++ (((rowIdxs sf).filter (fun r =>
              isFirstOcc sf cf r && ! decide (cellAt sf r cf ∈ rkeys))).enumFrom
                (2 + rkeys.length)).map (fun q => (q.2, q.1))) := by
  have hk : rkeys = rk2r.map Prod.fst := by
    rw [refData] at href
    split at href
    · simp at href
    · split at href
      · simp at href
      · split at href
        · simp at href
        · simp at href
          rw [← href.1, ← href.2]
  simp only [fileRowMapping, hsf, hdrive, href, hcf]
  congr 1
  rw [refDrivenMapping, phase1_fst, phase1_snd, phase2_eq]
  congr 1
  · exact congrArg (fun g => List.filterMap g (List.enumFrom 2 rkeys))
      (funext (fun p => by rw [scanKeyRows_alookup]))
  · rw [scanKeyRows_eq_filter, List.filter_map, List.filter_filter, List.enumFrom_map,
      List.map_map]
    show List.map (fun q : Nat × Nat => (q.2, q.1))
        (List.enumFrom (2 + rkeys.length)
          (List.filter (fun a => (alookup rk2r (cellAt sf a cf)).isNone && isFirstOcc sf cf a)
            (rowIdxs sf))) = _
    refine congrArg _ (congrArg _ (List.filter_congr ?_))
    intro x hx
    simp only [isNone_eq_not_mem_keys rk2r rkeys hk, Bool.and_comm]

theorem refData_shape {files : List Sheet} {refMap : List (String × Nat)} {R : String}
    {rkeys : List Val} {rk2r : List (Val × Nat)}
    (href : refData files refMap R = some (rkeys, rk2r)) :
    rkeys = rk2r.map Prod.fst ∧ ∃ rs c0, rk2r = scanKeyRows rs c0 := by
  rw [refData] at href
  split at href
  · simp at href
  · split at href
    · simp at href
    · split at href
      · simp at href
      · simp at href
        exact ⟨by rw [← href.1, ← href.2], _, _, href.2.symm⟩

/-- Looking up a source row in the canonical-walk mapping: the file's row for
the canonical key at position `i` is mapped to target `t + i`. -/
theorem phase1_alookup (fk2r : List (Val × Nat))
    (hinj : ∀ k1 k2 r, alookup fk2r k1 = some r → alookup fk2r k2 = some r → k1 = k2) :
    ∀ (ks : List Val) (t i : Nat) (k : Val) (rf : Nat), ks.Nodup →
      ks.get? i = some k → alookup fk2r k = some rf →
      alookup (phase1 fk2r ks t).1 rf = some (t + i) := by
  intro ks
  induction ks with
  | nil => intro t i k rf _ hget; simp at hget
  | cons k0 ks ih =>
    intro t i k rf hnd hget hlk
    have hnd2 := List.nodup_cons.mp hnd
    cases i with
    | zero =>
      rw [List.get?] at hget
      have hk0 : k0 = k := by injection hget
      rw [phase1]
      rw [hk0, hlk]
      simp [alookup]
    | succ i =>
      rw [List.get?] at hget
      have hkmem : k ∈ ks := List.get?_mem hget
      rw [phase1]
      cases halk : alookup fk2r k0 with
      | none =>
        have := ih (t + 1) i k rf hnd2.2 hget hlk
        rw [this]
        congr 1
        omega
      | some r0 =>
        have hne : r0 ≠ rf := by
          intro he
          rw [he] at halk
          exact hnd2.1 ((hinj k0 k rf halk hlk) ▸ hkmem)
        simp only [alookup, if_neg hne]
        have := ih (t + 1) i k rf hnd2.2 hget hlk
        rw [this]
        congr 1
        omega

theorem seqMap_mem {α β : Type} (g : α → Option β) :
    ∀ (l : List α) (ys : List β) (a : α), seqMap g l = some ys → a ∈ l →
      ∃ b, g a = some b ∧ b ∈ ys := by
  intro l
  induction l with
  | nil => intro ys a _ hmem; simp at hmem
  | cons x xs ih =>
    intro ys a hseq hmem
    rw [seqMap] at hseq
    cases hx : g x with
    | none => rw [hx] at hseq; simp at hseq
    | some b0 =>
      rw [hx] at hseq
      cases hxs : seqMap g xs with
      | none => rw [hxs] at hseq; simp at hseq
      | some bs =>
        rw [hxs] at hseq
        simp at hseq
        rcases List.mem_cons.mp hmem with he | ht
        · exact ⟨b0, by rw [he, hx], by rw [← hseq]; exact List.mem_cons_self _ _⟩
        · obtain ⟨b, hb1, hb2⟩ := ih bs a hxs ht
          exact ⟨b, hb1, by rw [← hseq]; exact List.mem_cons_of_mem _ hb2⟩

/-- One side of the alignment argument: a selected column of a file driven by
reference name `R`, where the file contains `R` and its copy of `R` contains
the canonical key at position `i`, writes that key's data cell at output row
`2 + i`. -/
theorem aligned_one_file
    (files : List Sheet) (sel : List (Nat × String)) (refMap : List (String × Nat))
    (out : List (List (Nat × Val)))
    (f : Nat) (nf : String) (sf : Sheet) (R : String)
    (rkeys : List Val) (rk2r : List (Val × Nat)) (cf cnf : Nat)
    (k : Val) (i rf : Nat)
    (hout : merge_multiple_files files sel refMap = some out)
    (hmemf : (f, nf) ∈ sel)
    (hsf : files.get? f = some sf)
    (hdf : findRefName (colsOfFile sel f) refMap = some R)
    (href : refData files refMap R = some (rkeys, rk2r))
    (hcf : colIdxOf sf R = some cf)
    (hcnf : colIdxOf sf nf = some cnf)
    (hkey : rkeys.get? i = some k)
    (hrf : alookup (scanKeyRows sf cf) k = some rf) :
    ∃ mf, fileRowMapping files refMap sel f = some mf ∧
      alookup mf rf = some (2 + i) ∧
      emitColumn sf cnf mf ∈ out ∧
      (2 + i, cellAt sf rf cnf) ∈ emitColumn sf cnf mf := by
  have hfrm : fileRowMapping files refMap sel f =
      some (refDrivenMapping rkeys rk2r (scanKeyRows sf cf)) := by
    simp only [fileRowMapping, hsf, hdf, href, hcf]
  obtain ⟨hkfst, rs0, c0, hrr⟩ := refData_shape href
  have hnodup : rkeys.Nodup := by
    rw [hkfst, hrr]
    exact scanKeyRows_keys_nodup rs0 c0
  have hinj : ∀ k1 k2 r, alookup (scanKeyRows sf cf) k1 = some r →
      alookup (scanKeyRows sf cf) k2 = some r → k1 = k2 :=
    fun k1 k2 r h1 h2 => scanKeyRows_row_inj sf cf h1 h2
  have hph1 : alookup (phase1 (scanKeyRows sf cf) rkeys 2).1 rf = some (2 + i) :=
    phase1_alookup (scanKeyRows sf cf) hinj rkeys 2 i k rf hnodup hkey hrf
  have hlm : alookup (refDrivenMapping rkeys rk2r (scanKeyRows sf cf)) rf = some (2 + i) := by
    rw [refDrivenMapping, alookup_append, hph1]
    rfl
  have hpairmem : (2 + i, cellAt sf rf cnf) ∈
      emitColumn sf cnf (refDrivenMapping rkeys rk2r (scanKeyRows sf cf)) := by
    rw [emitColumn]
    apply List.mem_cons_of_mem
    have : (rf, 2 + i) ∈ refDrivenMapping rkeys rk2r (scanKeyRows sf cf) :=
      mem_of_alookup_eq_some hlm
    exact List.mem_map.mpr ⟨(rf, 2 + i), this, rfl⟩
  cases hplan : mergePlan files sel refMap with
  | none =>
    rw [merge_multiple_files, hplan] at hout
    simp at hout
  | some plan =>
    rw [merge_multiple_files, hplan] at hout
    simp at hout
    rw [mergePlan] at hplan
    split at hplan
    case isFalse => simp at hplan
    case isTrue hcheck =>
      have hlt : f < files.length := by
        have := List.get?_eq_some.mp hsf
        exact this.1
      have hfmem : f ∈ sortedFileKeys files sel := by
        rw [sortedFileKeys, List.mem_filter, List.mem_range]
        refine ⟨hlt, ?_⟩
        simp only [decide_eq_true_eq, List.mem_map]
        exact ⟨(f, nf), hmemf, rfl⟩
      obtain ⟨b, hb, hbmem⟩ := seqMap_mem _ _ _ _ hplan hfmem
      rw [hsf, hfrm] at hb
      have hbval : b = (sf, colsOfFile sel f, refDrivenMapping rkeys rk2r (scanKeyRows sf cf)) := by
        injection hb.symm
      subst hbval
      have hnfmem : nf ∈ colsOfFile sel f := by
        rw [colsOfFile, List.mem_map]
        exact ⟨(f, nf), List.mem_filter.mpr ⟨hmemf, by simp⟩, rfl⟩
      have hcolmem : emitColumn sf cnf (refDrivenMapping rkeys rk2r (scanKeyRows sf cf)) ∈
          emitFile sf (colsOfFile sel f) (refDrivenMapping rkeys rk2r (scanKeyRows sf cf)) := by
        rw [emitFile]
        exact List.mem_filterMap.mpr ⟨nf, hnfmem, by rw [hcnf]; rfl⟩
      refine ⟨_, hfrm, hlm, ?_, hpairmem⟩
      rw [← hout]
      exact List.mem_flatten.mpr
        ⟨emitFile sf (colsOfFile sel f) (refDrivenMapping rkeys rk2r (scanKeyRows sf cf)),
         List.mem_map.mpr ⟨(sf, colsOfFile sel f, refDrivenMapping rkeys rk2r (scanKeyRows sf cf)),
           hbmem, rfl⟩, hcolmem⟩

/-- Claim C1 counterexample files: the reference file holds key 1 only; the
two non-reference files share the extra key 7, absent from the reference
column. -/
def cexRefSheet : Sheet := ⟨[[Val.vstr "R"], [Val.vint 1]]⟩

/-- Counterexample file F: reference column holds 5 then 7. -/
def cexFSheet : Sheet := ⟨[[Val.vstr "R"], [Val.vint 5], [Val.vint 7]]⟩

/-- Counterexample file G: reference column holds 7 only. -/
def cexGSheet : Sheet := ⟨[[Val.vstr "R"], [Val.vint 7]]⟩

/-- The merge output on the counterexample inputs. -/
def cexOut : List (List (Nat × Val)) :=
  [[(1, Val.vstr "R"), (3, Val.vint 5), (4, Val.vint 7)],
   [(1, Val.vstr "R"), (3, Val.vint 7)]]

/-- Claim C1 counterexample: files F and G are both driven by reference name
`R` (each containing its own copy of `R`), key 7 is present in both files'
reference columns, yet F's cell for key 7 is written at output row 4 while
G's is written at output row 3 — different rows.  (Key 7 is absent from the
*reference file's* column, so each file appends it with its own private
counter.) -/
theorem alignment_cex :
    merge_multiple_files [cexRefSheet, cexFSheet, cexGSheet]
        [(1, "R"), (2, "R")] [("R", 0)] = some cexOut ∧
    findRefName (colsOfFile [(1, "R"), (2, "R")] 1) [("R", 0)] = some "R" ∧
    findRefName (colsOfFile [(1, "R"), (2, "R")] 2) [("R", 0)] = some "R" ∧
    alookup (scanKeyRows cexFSheet 1) (Val.vint 7) = some 3 ∧
    alookup (scanKeyRows cexGSheet 1) (Val.vint 7) = some 2 ∧
    outCell cexOut 4 1 = Val.vint 7 ∧
    outCell cexOut 3 2 = Val.vint 7 ∧
    outCell cexOut 3 1 ≠ Val.vint 7 ∧
    outCell cexOut 4 2 ≠ Val.vint 7 := by
  decide

/-- Claim C1, amended: for any two selected columns whose source files are
driven by the same reference column name, and for every key present in both
files' reference columns *and in the reference file's canonical key
sequence*, the data cells of both columns for that key are written to the
same output row, namely `2 + (the key's index in the canonical
sequence)`. -/
theorem alignment_canonical_keys
    (files : List Sheet) (sel : List (Nat × String)) (refMap : List (String × Nat))
    (out : List (List (Nat × Val)))
    (f g : Nat) (nf ng : String) (sf sg : Sheet) (R : String)
    (rkeys : List Val) (rk2r : List (Val × Nat)) (cf cg cnf cng : Nat)
    (k : Val) (i rf rg : Nat)
    (hout : merge_multiple_files files sel refMap = some out)
    (hmemf : (f, nf) ∈ sel) (hmemg : (g, ng) ∈ sel)
    (hsf : files.get? f = some sf) (hsg : files.get? g = some sg)
    (hdf : findRefName (colsOfFile sel f) refMap = some R)
    (hdg : findRefName (colsOfFile sel g) refMap = some R)
    (href : refData files refMap R = some (rkeys, rk2r))
    (hcf : colIdxOf sf R = some cf) (hcg : colIdxOf sg R = some cg)
    (hcnf : colIdxOf sf nf = some cnf) (hcng : colIdxOf sg ng = some cng)
    (hkey : rkeys.get? i = some k)
    (hrf : alookup (scanKeyRows sf cf) k = some rf)
    (hrg : alookup (scanKeyRows sg cg) k = some rg) :
    ∃ mf mg,
      fileRowMapping files refMap sel f = some mf ∧
      fileRowMapping files refMap sel g = some mg ∧
      alookup mf rf = some (2 + i) ∧
      alookup mg rg = some (2 + i) ∧
      emitColumn sf cnf mf ∈ out ∧
      emitColumn sg cng mg ∈ out ∧
      (2 + i, cellAt sf rf cnf) ∈ emitColumn sf cnf mf ∧
      (2 + i, cellAt sg rg cng) ∈ emitColumn sg cng mg := by
  obtain ⟨mf, hmf1, hmf2, hmf3, hmf4⟩ :=
    aligned_one_file files sel refMap out f nf sf R rkeys rk2r cf cnf k i rf
      hout hmemf hsf hdf href hcf hcnf hkey hrf
  obtain ⟨mg, hmg1, hmg2, hmg3, hmg4⟩ :=
    aligned_one_file files sel refMap out g ng sg R rkeys rk2r cg cng k i rg
      hout hmemg hsg hdg href hcg hcng hkey hrg
  exact ⟨mf, mg, hmf1, hmg1, hmf2, hmg2, hmf3, hmg3, hmf4, hmg4⟩

/-- Witness reference file: keys 1, 2. -/
def c1wRef : Sheet := ⟨[[Val.vstr "R"], [Val.vint 1], [Val.vint 2]]⟩

/-- Witness second file: key 2 only. -/
def c1wF : Sheet := ⟨[[Val.vstr "R"], [Val.vint 2]]⟩

/-- The merge output on the witness inputs. -/
def c1wOut : List (List (Nat × Val)) :=
  [[(1, Val.vstr "R"), (2, Val.vint 1), (3, Val.vint 2)],
   [(1, Val.vstr "R"), (3, Val.vint 2)]]

/-- Witness for `alignment_canonical_keys`: canonical key 2 (index 1) lands
at output row 3 for the columns of both files. -/
theorem alignment_canonical_keys_witness :
    ∃ mf mg,
      fileRowMapping [c1wRef, c1wF] [("R", 0)] [(0, "R"), (1, "R")] 0 = some mf ∧
      fileRowMapping [c1wRef, c1wF] [("R", 0)] [(0, "R"), (1, "R")] 1 = some mg ∧
      alookup mf 3 = some (2 + 1) ∧
      alookup mg 2 = some (2 + 1) ∧
      emitColumn c1wRef 1 mf ∈ c1wOut ∧
      emitColumn c1wF 1 mg ∈ c1wOut ∧
      (2 + 1, cellAt c1wRef 3 1) ∈ emitColumn c1wRef 1 mf ∧
      (2 + 1, cellAt c1wF 2 1) ∈ emitColumn c1wF 1 mg :=
  alignment_canonical_keys [c1wRef, c1wF] [(0, "R"), (1, "R")] [("R", 0)] c1wOut
    0 1 "R" "R" c1wRef c1wF "R" [Val.vint 1, Val.vint 2]
    [(Val.vint 1, 2), (Val.vint 2, 3)] 1 1 1 1 (Val.vint 2) 1 3 2
    (by decide) (by decide) (by decide) (by decide) (by decide) (by decide)
    (by decide) (by decide) (by decide) (by decide) (by decide) (by decide)
    (by decide) (by decide) (by decide)

/-- Witness reference file for the row-mapping construction. -/
def c3Ref : Sheet := ⟨[[Val.vstr "R"], [Val.vint 1], [Val.vint 2]]⟩

/-- Witness driven file: contains canonical key 2 and extra key 9. -/
def c3F : Sheet := ⟨[[Val.vstr "R"], [Val.vint 2], [Val.vint 9]]⟩

/-- Witness for `row_mapping_construction`: canonical key 2 (index 1) maps
row 2 to target 3; extra key 9 is appended at target `2 + 2 = 4`. -/
theorem row_mapping_construction_witness :
    refData [c3Ref, c3F] [("R", 0)] "R" =
      some ([Val.vint 1, Val.vint 2], [(Val.vint 1, 2), (Val.vint 2, 3)]) ∧
    fileRowMapping [c3Ref, c3F] [("R", 0)] [(0, "R"), (1, "R")] 1 = some (
      (([Val.vint 1, Val.vint 2].enumFrom 2).filterMap
          (fun p => (firstRowOf c3F 1 p.2).map (fun r => (r, p.1))))
        ++ (((rowIdxs c3F).filter (fun r =>
              isFirstOcc c3F 1 r && ! decide (cellAt c3F r 1 ∈ [Val.vint 1, Val.vint 2]))).enumFrom
                (2 + [Val.vint 1, Val.vint 2].length)).map (fun q => (q.2, q.1))) :=
  ⟨by decide,
   row_mapping_construction [c3Ref, c3F] [("R", 0)] [(0, "R"), (1, "R")] 1 c3F "R"
     [Val.vint 1, Val.vint 2] [(Val.vint 1, 2), (Val.vint 2, 3)] 1
     (by decide) (by decide) (by decide) (by decide)⟩

/-- `find?` over an increasing range returns the least element satisfying the
predicate. -/
theorem find?_range'_min (p : Nat → Bool) :
    ∀ (n a r : Nat), (List.range' a n).find? p = some r →
      ∀ r2, r2 ∈ List.range' a n → p r2 = true → r ≤ r2 := by
  intro n
  induction n with
  | zero => intro a r hf; simp [List.range'] at hf
  | succ n ih =>
    intro a r hf r2 hmem hp
    rw [List.range'_succ] at hf
    cases hpa : p a with
    | true =>
      rw [List.find?_cons_of_pos _ hpa] at hf
      have : a = r := by injection hf
      subst this
      exact (List.mem_range'_1.mp hmem).1
    | false =>
      rw [List.find?_cons_of_neg _ (by simp [hpa])] at hf
      rw [List.range'_succ] at hmem
      rcases List.mem_cons.mp hmem with he | ht
      · rw [he] at hp
        rw [hp] at hpa
        simp at hpa
      · exact ih (a + 1) r hf r2 ht hp

/-- Every source row of a reference-driven mapping is a row recorded in the
file's `file_key_to_row`. -/
theorem refDriven_fst_mem (rkeys : List Val) (rk2r fk2r : List (Val × Nat))
    (p : Nat × Nat) (hp : p ∈ refDrivenMapping rkeys rk2r fk2r) :
    p.1 ∈ fk2r.map Prod.snd := by
  rw [refDrivenMapping] at hp
  rcases List.mem_append.mp hp with h1 | h2
  · rw [phase1_fst] at h1
    obtain ⟨q, _, hq2⟩ := List.mem_filterMap.mp h1
    cases halk : alookup fk2r q.2 with
    | none => rw [halk] at hq2; simp at hq2
    | some r0 =>
      rw [halk] at hq2
      simp at hq2
      have : (q.2, p.1) ∈ fk2r := by
        have hr0 : r0 = p.1 := by rw [← hq2]
        rw [← hr0]
        exact mem_of_alookup_eq_some halk
      simpa using List.mem_map_of_mem Prod.snd this
  · rw [phase2_eq] at h2
    obtain ⟨q, hq1, hq2⟩ := List.mem_map.mp h2
    have hq2mem : q.2 ∈ fk2r.filter (fun p => (alookup rk2r p.1).isNone) := by
      have := List.mem_map_of_mem Prod.snd hq1
      rwa [List.enumFrom_map_snd] at this
    have hqf : q.2 ∈ fk2r := List.mem_of_mem_filter hq2mem
    have : p.1 = q.2.2 := by rw [← hq2]
    rw [this]
    exact List.mem_map_of_mem Prod.snd hqf

/-- Claim C10: in a reference-driven file, a source row whose key already
occurred at an earlier row is not entered in the row mapping, so none of its
cells are ever written to the output; and every source row that *is* entered
is the first occurrence of its key. -/
theorem duplicate_rows_dropped
    (files : List Sheet) (refMap : List (String × Nat)) (sel : List (Nat × String))
    (f : Nat) (sf : Sheet) (R : String) (rkeys : List Val) (rk2r : List (Val × Nat)) (cf : Nat)
    (r r2 : Nat)
    (hsf : files.get? f = some sf)
    (hdrive : findRefName (colsOfFile sel f) refMap = some R)
    (href : refData files refMap R = some (rkeys, rk2r))
    (hcf : colIdxOf sf R = some cf)
    (hr2 : r2 ∈ rowIdxs sf) (hlt : r2 < r)
    (hsame : cellAt sf r2 cf = cellAt sf r cf) :
    ∃ m, fileRowMapping files refMap sel f = some m ∧
      alookup m r = none ∧
      ¬ r ∈ m.map Prod.fst ∧
      ∀ p ∈ m, isFirstOcc sf cf p.1 = true := by
  have hfrm : fileRowMapping files refMap sel f =
      some (refDrivenMapping rkeys rk2r (scanKeyRows sf cf)) := by
    simp only [fileRowMapping, hsf, hdrive, href, hcf]
  have hsources : ∀ x, x ∈ (refDrivenMapping rkeys rk2r (scanKeyRows sf cf)).map Prod.fst →
      isFirstOcc sf cf x = true := by
    intro x hx
    obtain ⟨p, hp, hpx⟩ := List.mem_map.mp hx
    have := refDriven_fst_mem rkeys rk2r (scanKeyRows sf cf) p hp
    rw [scanKeyRows_map_snd] at this
    rw [← hpx]
    exact (List.mem_filter.mp this).2
  have hnotr : ¬ r ∈ (refDrivenMapping rkeys rk2r (scanKeyRows sf cf)).map Prod.fst := by
    intro hmem
    have hfo : isFirstOcc sf cf r = true := hsources r hmem
    rw [isFirstOcc] at hfo
    simp only [decide_eq_true_eq] at hfo
    have hle : r ≤ r2 := by
      have hfo2 : (List.range' 2 (sf.maxRow - 1)).find?
          (fun rr => decide (cellAt sf rr cf = cellAt sf r cf)) = some r := by
        rw [firstRowOf, rowIdxs] at hfo
        exact hfo
      have hr2m : r2 ∈ List.range' 2 (sf.maxRow - 1) := by
        rw [rowIdxs] at hr2
        exact hr2
      exact find?_range'_min _ _ _ _ hfo2 r2 hr2m (by simp [hsame])
    omega
  refine ⟨refDrivenMapping rkeys rk2r (scanKeyRows sf cf), hfrm, ?_, hnotr, ?_⟩
  · rw [alookup_eq_none_iff]
    exact hnotr
  · intro p hp
    exact hsources p.1 (List.mem_map_of_mem Prod.fst hp)

/-- Witness reference file for duplicate dropping. -/
def c10Ref : Sheet := ⟨[[Val.vstr "R"], [Val.vint 1]]⟩

/-- Witness driven file: key 1 occurs at rows 2 and 3. -/
def c10F : Sheet := ⟨[[Val.vstr "R"], [Val.vint 1], [Val.vint 1]]⟩

/-- Witness for `duplicate_rows_dropped`: row 3 of the file repeats key 1
(first seen at row 2), so row 3 is absent from the row mapping. -/
theorem duplicate_rows_dropped_witness :
    ∃ m, fileRowMapping [c10Ref, c10F] [("R", 0)] [(1, "R")] 1 = some m ∧
      alookup m 3 = none ∧
      ¬ 3 ∈ m.map Prod.fst ∧
      ∀ p ∈ m, isFirstOcc c10F 1 p.1 = true :=
  duplicate_rows_dropped [c10Ref, c10F] [("R", 0)] [(1, "R")] 1 c10F "R"
    [Val.vint 1] [(Val.vint 1, 2)] 1 3 2
    (by decide) (by decide) (by decide) (by decide) (by decide) (by decide) (by decide)

/-- Claim C4: the extractor's output has exactly one column per requested
name that resolves in the source header, in request order, packed without
gaps; a requested name absent from the header contributes nothing (and the
function is total — no error). -/
theorem extract_order_preservation (s : Sheet) :
    ∀ (sel : List String),
      (extract_columns s sel).length =
        (sel.filter (fun n => decide (n ∈ headerNames s))).length ∧
      (∀ i n, (sel.filter (fun n => decide (n ∈ headerNames s))).get? i = some n →
        ∃ c, colIdxOf s n = some c ∧
          (extract_columns s sel).get? i =
            some ((List.range' 1 s.maxRow).map (fun r => cellAt s r c))) := by
  intro sel
  induction sel with
  | nil =>
    constructor
    · rfl
    · intro i n h
      simp at h
  | cons n0 rest ih =>
    by_cases hmem : n0 ∈ headerNames s
    · have hs : (colIdxOf s n0).isSome = true := (colIdxOf_isSome_iff s n0).mpr hmem
      obtain ⟨c0, hc0⟩ := Option.isSome_iff_exists.mp hs
      have hext : extract_columns s (n0 :: rest) =
          ((List.range' 1 s.maxRow).map (fun r => cellAt s r c0)) :: extract_columns s rest := by
        rw [extract_columns, extract_columns, List.filterMap_cons, hc0]
        rfl
      have hfil : (n0 :: rest).filter (fun n => decide (n ∈ headerNames s)) =
          n0 :: rest.filter (fun n => decide (n ∈ headerNames s)) :=
        List.filter_cons_of_pos (by simp [hmem])
      constructor
      · rw [hext, hfil, List.length_cons, List.length_cons, ih.1]
      · intro i n hget
        rw [hfil] at hget
        cases i with
        | zero =>
          rw [List.get?] at hget
          have hn : n0 = n := by injection hget
          subst hn
          exact ⟨c0, hc0, by rw [hext]; rfl⟩
        | succ i =>
          rw [List.get?] at hget
          obtain ⟨c, hc, hgc⟩ := ih.2 i n hget
          refine ⟨c, hc, ?_⟩
          rw [hext]
          exact hgc
    · have hn : colIdxOf s n0 = none := by
        cases h : colIdxOf s n0 with
        | none => rfl
        | some c =>
          exfalso
          apply hmem
          rw [← colIdxOf_isSome_iff, h]
          rfl
      have hext : extract_columns s (n0 :: rest) = extract_columns s rest := by
        rw [extract_columns, extract_columns, List.filterMap_cons, hn]
        rfl
      have hfil : (n0 :: rest).filter (fun n => decide (n ∈ headerNames s)) =
          rest.filter (fun n => decide (n ∈ headerNames s)) :=
        List.filter_cons_of_neg (by simp [hmem])
      rw [hext, hfil]
      exact ih

/-- Witness for `extract_order_preservation` on the scenario's file A with
request `["Name", "Missing", "ID"]`: two output columns, `Name` then `ID`,
the missing name skipped silently. -/
theorem extract_order_preservation_witness :
    ((extract_columns scenA ["Name", "Missing", "ID"]).length =
      ((["Name", "Missing", "ID"].filter
        (fun n => decide (n ∈ headerNames scenA)))).length) ∧
    (∃ c, colIdxOf scenA "Name" = some c ∧
      (extract_columns scenA ["Name", "Missing", "ID"]).get? 0 =
        some ((List.range' 1 scenA.maxRow).map (fun r => cellAt scenA r c))) ∧
    (∃ c, colIdxOf scenA "ID" = some c ∧
      (extract_columns scenA ["Name", "Missing", "ID"]).get? 1 =
        some ((List.range' 1 scenA.maxRow).map (fun r => cellAt scenA r c))) :=
  ⟨(extract_order_preservation scenA ["Name", "Missing", "ID"]).1,
   (extract_order_preservation scenA ["Name", "Missing", "ID"]).2 0 "Name" (by decide),
   (extract_order_preservation scenA ["Name", "Missing", "ID"]).2 1 "ID" (by decide)⟩

/-- `n` consecutive `raise_if_cancelled` polls starting at poll index `k`:
`none` when some poll observes the set token (the operation raises
`TaskCancelledException` before writing the current row), otherwise the next
poll index. -/
def pollRows (tok : Nat → Bool) : Nat → Nat → Option Nat
  | 0, k => some k
  | n + 1, k => if tok k then none else pollRows tok n (k + 1)

/-- The extractor's poll sequence: one poll per row (rows `1..max_row`) for
each emitted column, in order. -/
def runColsPolls (tok : Nat → Bool) (rows : Nat) : List Nat → Nat → Option Nat
  | [], k => some k
  | _ :: cs, k =>
    match pollRows tok rows k with
    | none => none
    | some k2 => runColsPolls tok rows cs k2

/-- The column indices the extractor actually copies, in output order. -/
def extractCols (s : Sheet) (sel : List String) : List Nat :=
  sel.filterMap (colIdxOf s)

/-- `extract_columns` with its cancellation token: `none` when a poll
observes the set token — the operation raises and `save` is never invoked,
so nothing is written to disk; otherwise the saved output. -/
def extract_columns_run (s : Sheet) (sel : List String) (tok : Nat → Bool) :
    Option (List (List Val)) :=
  match runColsPolls tok s.maxRow (extractCols s sel) 0 with
  | none => none
  | some _ => some (extract_columns s sel)

/-- Total number of cancellation polls an uncancelled extract performs. -/
def extractPollCount (s : Sheet) (sel : List String) : Nat :=
  (extractCols s sel).length * s.maxRow

/-- The merge emit phase's poll sequence for one file: one poll per selected
column name (line before the resolution check), then one poll per row-mapping
entry for resolvable columns. -/
def colPolls (tok : Nat → Bool) (sheet : Sheet) (m : List (Nat × Nat)) :
    List String → Nat → Option Nat
  | [], k => some k
  | n :: ns, k =>
    if tok k then none
    else
      match colIdxOf sheet n with
      | none => colPolls tok sheet m ns (k + 1)
      | some _ =>
        match pollRows tok m.length (k + 1) with
        | none => none
        | some k2 => colPolls tok sheet m ns k2

/-- The merge emit phase's poll sequence over the whole plan. -/
def runPlanPolls (tok : Nat → Bool) :
    List (Sheet × List String × List (Nat × Nat)) → Nat → Option Nat
  | [], k => some k
  | t :: ts, k =>
    match colPolls tok t.1 t.2.2 t.2.1 k with
    | none => none
    | some k2 => runPlanPolls tok ts k2

/-- Outcome of a merge run: raised a `KeyError`-style exception while
building the plan, raised `TaskCancelledException` at a poll, or completed
and saved the output. -/
inductive MergeOutcome where
  | errored : MergeOutcome
  | cancelled : MergeOutcome
  | done : List (List (Nat × Val)) → MergeOutcome
deriving DecidableEq, Repr

/-- `merge_multiple_files` with its cancellation token; only `done` invokes
`save` (and, just before it, the source-workbook close loop). -/
def merge_multiple_files_run (files : List Sheet) (sel : List (Nat × String))
    (refMap : List (String × Nat)) (tok : Nat → Bool) : MergeOutcome :=
  match mergePlan files sel refMap with
  | none => MergeOutcome.errored
  | some plan =>
    match runPlanPolls tok plan 0 with
    | none => MergeOutcome.cancelled
    | some _ => MergeOutcome.done ((plan.map (fun t => emitFile t.1 t.2.1 t.2.2)).flatten)

/-- Number of polls for one file's columns in the merge emit phase. -/
def colPollCount (sheet : Sheet) (m : List (Nat × Nat)) (names : List String) : Nat :=
  (names.map (fun n =>
    match colIdxOf sheet n with
    | none => 1
    | some _ => 1 + m.length)).sum

/-- Total number of polls an uncancelled merge emit phase performs. -/
def mergePollCount (plan : List (Sheet × List String × List (Nat × Nat))) : Nat :=
  (plan.map (fun t => colPollCount t.1 t.2.2 t.2.1)).sum

/-- The source closes all source workbooks only on the success path (lines
just before `save`); the `except` block re-raises without closing. -/
def mergeClosesHandles (files : List Sheet) (sel : List (Nat × String))
    (refMap : List (String × Nat)) (tok : Nat → Bool) : Bool :=
  match merge_multiple_files_run files sel refMap tok with
  | MergeOutcome.done _ => true
  | _ => false

theorem pollRows_some (tok : Nat → Bool) :
    ∀ (n k k2 : Nat), pollRows tok n k = some k2 →
      k2 = k + n ∧ ∀ i, k ≤ i → i < k + n → tok i = false := by
  intro n
  induction n with
  | zero =>
    intro k k2 h
    rw [pollRows] at h
    constructor
    · injection h; omega
    · intro i h1 h2; omega
  | succ n ih =>
    intro k k2 h
    rw [pollRows] at h
    cases htk : tok k with
    | true => rw [htk] at h; simp at h
    | false =>
      rw [htk, if_neg (by simp)] at h
      obtain ⟨he, hall⟩ := ih (k + 1) k2 h
      constructor
      · omega
      · intro i h1 h2
        by_cases hik : i = k
        · rw [hik]; exact htk
        · exact hall i (by omega) (by omega)

theorem runColsPolls_some (tok : Nat → Bool) (rows : Nat) :
    ∀ (cs : List Nat) (k k2 : Nat), runColsPolls tok rows cs k = some k2 →
      k2 = k + cs.length * rows ∧ ∀ i, k ≤ i → i < k2 → tok i = false := by
  intro cs
  induction cs with
  | nil =>
    intro k k2 h
    rw [runColsPolls] at h
    have hk : k = k2 := by injection h
    constructor
    · simp [← hk]
    · intro i h1 h2
      omega
  | cons c cs ih =>
    intro k k2 h
    rw [runColsPolls] at h
    cases hp : pollRows tok rows k with
    | none => rw [hp] at h; simp at h
    | some ka =>
      rw [hp] at h
      obtain ⟨hae, haall⟩ := pollRows_some tok rows k ka hp
      obtain ⟨hbe, hball⟩ := ih ka k2 h
      constructor
      · rw [List.length_cons, Nat.succ_mul]
        omega
      · intro i h1 h2
        by_cases hia : i < ka
        · exact haall i h1 (by omega)
        · exact hball i (by omega) h2

theorem colPolls_some (tok : Nat → Bool) (sheet : Sheet) (m : List (Nat × Nat)) :
    ∀ (ns : List String) (k k2 : Nat), colPolls tok sheet m ns k = some k2 →
      k2 = k + colPollCount sheet m ns ∧ ∀ i, k ≤ i → i < k2 → tok i = false := by
  intro ns
  induction ns with
  | nil =>
    intro k k2 h
    rw [colPolls] at h
    have : k2 = k := by injection h; omega
    constructor
    · rw [this, colPollCount]; simp
    · intro i h1 h2; omega
  | cons n ns ih =>
    intro k k2 h
    rw [colPolls] at h
    cases htk : tok k with
    | true => rw [htk] at h; simp at h
    | false =>
      rw [htk, if_neg (by simp)] at h
      cases hci : colIdxOf sheet n with
      | none =>
        rw [hci] at h
        obtain ⟨hbe, hball⟩ := ih (k + 1) k2 h
        have hcount2 : colPollCount sheet m (n :: ns) = 1 + colPollCount sheet m ns := by
          simp [colPollCount, hci]
        rw [hcount2]
        constructor
        · omega
        · intro i h1 h2
          by_cases hik : i = k
          · rw [hik]; exact htk
          · exact hball i (by omega) h2
      | some c =>
        rw [hci] at h
        cases hp : pollRows tok m.length (k + 1) with
        | none => rw [hp] at h; simp at h
        | some ka =>
          rw [hp] at h
          obtain ⟨hae, haall⟩ := pollRows_some tok m.length (k + 1) ka hp
          obtain ⟨hbe, hball⟩ := ih ka k2 h
          have hcount2 : colPollCount sheet m (n :: ns) =
              (1 + m.length) + colPollCount sheet m ns := by
            simp [colPollCount, hci]
          rw [hcount2]
          constructor
          · omega
          · intro i h1 h2
            by_cases hik : i = k
            · rw [hik]; exact htk
            · by_cases hia : i < ka
              · exact haall i (by omega) (by omega)
              · exact hball i (by omega) h2

theorem runPlanPolls_some (tok : Nat → Bool) :
    ∀ (ts : List (Sheet × List String × List (Nat × Nat))) (k k2 : Nat),
      runPlanPolls tok ts k = some k2 →
      k2 = k + mergePollCount ts ∧ ∀ i, k ≤ i → i < k2 → tok i = false := by
  intro ts
  induction ts with
  | nil =>
    intro k k2 h
    rw [runPlanPolls] at h
    have : k2 = k := by injection h; omega
    constructor
    · rw [this, mergePollCount]; simp
    · intro i h1 h2; omega
  | cons t ts ih =>
    intro k k2 h
    rw [runPlanPolls] at h
    cases hc : colPolls tok t.1 t.2.2 t.2.1 k with
    | none => rw [hc] at h; simp at h
    | some ka =>
      rw [hc] at h
      obtain ⟨hae, haall⟩ := colPolls_some tok t.1 t.2.2 t.2.1 k ka hc
      obtain ⟨hbe, hball⟩ := ih ka k2 h
      have hcount : mergePollCount (t :: ts) =
          colPollCount t.1 t.2.2 t.2.1 + mergePollCount ts := by
        rw [mergePollCount, mergePollCount, List.map_cons, List.sum_cons]
      rw [hcount]
      constructor
      · omega
      · intro i h1 h2
        by_cases hia : i < ka
        · exact haall i h1 hia
        · exact hball i (by omega) h2

/-- Claim C6: if the cancellation signal reads true at any poll the operation
performs before reaching its save step, then the extract run raises a
cancelled outcome (`none`: `save` never invoked, nothing on disk), and the
merge run — whose plan phase succeeded — ends `cancelled`, never `done`. -/
theorem cancel_before_save
    (s : Sheet) (sel : List String) (tok : Nat → Bool) (i : Nat)
    (files : List Sheet) (msel : List (Nat × String)) (refMap : List (String × Nat))
    (tok2 : Nat → Bool) (plan : List (Sheet × List String × List (Nat × Nat))) (j : Nat)
    (h1 : i < extractPollCount s sel) (h2 : tok i = true)
    (h3 : mergePlan files msel refMap = some plan)
    (h4 : j < mergePollCount plan) (h5 : tok2 j = true) :
    extract_columns_run s sel tok = none ∧
    merge_multiple_files_run files msel refMap tok2 = MergeOutcome.cancelled := by
  constructor
  · rw [extract_columns_run]
    cases hrun : runColsPolls tok s.maxRow (extractCols s sel) 0 with
    | none => rfl
    | some k2 =>
      exfalso
      obtain ⟨hke, hall⟩ := runColsPolls_some tok s.maxRow (extractCols s sel) 0 k2 hrun
      have : tok i = false := by
        apply hall i (Nat.zero_le i)
        rw [hke]
        rw [extractPollCount] at h1
        omega
      rw [h2] at this
      simp at this
  · rw [merge_multiple_files_run, h3]
    cases hrun : runPlanPolls tok2 plan 0 with
    | none => simp [hrun]
    | some k2 =>
      exfalso
      obtain ⟨hke, hall⟩ := runPlanPolls_some tok2 plan 0 k2 hrun
      have : tok2 j = false := by
        apply hall j (Nat.zero_le j)
        omega
      rw [h5] at this
      simp at this

/-- Witness sheet for the cancellation claims. -/
def c6Sheet : Sheet := ⟨[[Val.vstr "A"], [Val.vint 1]]⟩

/-- Witness for `cancel_before_save`: with the token set from the start,
extracting column A and merging file 0's column A both abort cancelled and
save nothing. -/
theorem cancel_before_save_witness :
    extract_columns_run c6Sheet ["A"] (fun _ => true) = none ∧
    merge_multiple_files_run [c6Sheet] [(0, "A")] [] (fun _ => true) =
      MergeOutcome.cancelled :=
  cancel_before_save c6Sheet ["A"] (fun _ => true) 0 [c6Sheet] [(0, "A")] []
    (fun _ => true) [(c6Sheet, ["A"], [(2, 2)])] 0
    (by decide) rfl (by decide) (by decide) rfl

/-- Witness sheet for the handle-release claim. -/
def c7Sheet : Sheet := ⟨[[Val.vstr "A"], [Val.vint 1]]⟩

/-- Claim C7 (code bug): a merge cancelled at its first poll terminates with
the cancelled outcome while the source-workbook close loop never ran — the
source closes handles only on the success path immediately before `save`;
the exception path re-raises without closing. -/
theorem merge_handle_leak :
    merge_multiple_files_run [c7Sheet] [(0, "A")] [] (fun _ => true) =
      MergeOutcome.cancelled ∧
    mergeClosesHandles [c7Sheet] [(0, "A")] [] (fun _ => true) = false ∧
    mergeClosesHandles [c7Sheet] [(0, "A")] [] (fun _ => false) = true := by
  decide
